import Mathlib

/-
  Verification of the request-cache core of the SignAge-Web repository:
  the TTL cache manager (CacheManager / CacheEntry), the cache-aware fetch
  wrapper (CachedAPIService.cachedCall and its mutation methods), and the
  priority-ordered startup warmer (CacheWarmer.warmCache).

  The JavaScript source is embedded shallowly:
  - `Date.now()` becomes an explicit `now : Int` argument threaded through
    every operation that reads the clock.
  - The JS `Map` backing `this.store` becomes an association list
    `List (String × CacheEntry)`; `Map.set` replaces an existing key in
    place (preserving insertion order) or appends, `Map.delete` removes
    the unique matching entry, exactly as the JS `Map` API does for the
    duplicate-free stores that are reachable at run time.
  - JS values that flow through the cache are modelled by `JSValue`, with
    `truthy` giving JS boolean coercion; `a || b` on numbers-or-null
    becomes `jsOrInt`.
  - Console logging and the invalidation-listener callbacks
    (`_notifyInvalidation`) are omitted: they never touch the store, the
    statistics, or any value returned to a caller.
  - Asynchronous fetchers become their one outcome `Except JSValue JSValue`
    (the fetcher is invoked at most once per `cachedCall`); whether the
    fetcher was invoked is recorded explicitly in the call outcome.
-/

namespace SignAge

/-- JavaScript runtime values, restricted to what flows through the cache
layer: primitives plus result objects of which `cachedCall` only ever
inspects the `success`, `error` and `data` fields. -/
inductive JSValue where
  | vundefined
  | vnull
  | vbool (b : Bool)
  | vnum (n : Int)
  | vstr (s : String)
  | vobj (success error data : JSValue)
deriving Repr, DecidableEq

/-- JS boolean coercion (`if (x)`): `undefined`, `null`, `false`, `0` and
the empty string are falsy; objects are always truthy. -/
def truthy : JSValue → Bool
  | .vundefined => false
  | .vnull => false
  | .vbool b => b
  | .vnum n => n != 0
  | .vstr s => s != ""
  | .vobj _ _ _ => true

/-- The JS expression `result?.success`: field access on an object, and
`undefined` on every non-object (optional chaining short-circuits on
`null`/`undefined`; property access on other primitives yields
`undefined` for these field names). -/
def JSValue.optSuccess : JSValue → JSValue
  | .vobj s _ _ => s
  | _ => .vundefined

/-- The JS expression `result?.error`. -/
def JSValue.optError : JSValue → JSValue
  | .vobj _ e _ => e
  | _ => .vundefined

/-- The JS expression `result?.data`. -/
def JSValue.optData : JSValue → JSValue
  | .vobj _ _ d => d
  | _ => .vundefined

/-- JS `a || b` where `a` is a number, `null` or `undefined` (modelled as
`none`) and the result is used as a number: `0` is falsy and falls
through to `b`; every other number (negative ones included) is truthy. -/
def jsOrInt : Option Int → Int → Int
  | some v, fallback => if v = 0 then fallback else v
  | none, fallback => fallback

/-- JS `s.startsWith(p)`, written out on the underlying character lists. -/
def listStartsWith : List Char → List Char → Bool
  | _, [] => true
  | [], _ :: _ => false
  | a :: as, b :: bs => a == b && listStartsWith as bs

/-- JS `s.startsWith(p)` on strings. -/
def strStartsWith (s p : String) : Bool := listStartsWith s.data p.data

/-- One cache entry (`class CacheEntry`); `timestamp` and
`lastAccessTime` record the `Date.now()` of creation. -/
structure CacheEntry where
  data : JSValue
  ttl : Int
  timestamp : Int
  key : String
  accessCount : Nat
  lastAccessTime : Int
deriving Repr, DecidableEq

/-- `CacheEntry` constructor: `new CacheEntry(data, ttl, key)` at clock
value `now`. -/
def CacheEntry.mkNew (data : JSValue) (ttl : Int) (key : String) (now : Int) : CacheEntry :=
  { data := data, ttl := ttl, timestamp := now, key := key, accessCount := 0, lastAccessTime := now }

/-- `CacheEntry.isValid()`: the age is strictly below the TTL. -/
def CacheEntry.isValid (e : CacheEntry) (now : Int) : Bool :=
  now - e.timestamp < e.ttl

/-- `CacheEntry.getTimeToLive()`. -/
def CacheEntry.getTimeToLive (e : CacheEntry) (now : Int) : Int :=
  max 0 (e.ttl - (now - e.timestamp))

/-- `CacheEntry.recordAccess()`. -/
def CacheEntry.recordAccess (e : CacheEntry) (now : Int) : CacheEntry :=
  { e with accessCount := e.accessCount + 1, lastAccessTime := now }

/-- The `Map` that backs `CacheManager.store`, as an association list in
insertion order. -/
abbrev Store := List (String × CacheEntry)

/-- JS `Map.prototype.get`. -/
def mapGet : Store → String → Option CacheEntry
  | [], _ => none
  | p :: ps, k => if p.1 == k then some p.2 else mapGet ps k

/-- JS `Map.prototype.set`: replace an existing key in place, else append. -/
def mapSet : Store → String → CacheEntry → Store
  | [], k, v => [(k, v)]
  | p :: ps, k, v => if p.1 == k then (k, v) :: ps else p :: mapSet ps k v

/-- JS `Map.prototype.delete` (dropping the entry with the given key). -/
def mapDelete : Store → String → Store
  | [], _ => []
  | p :: ps, k => if p.1 == k then ps else p :: mapDelete ps k

/-- Cumulative counters of `this.stats`. -/
structure CacheStats where
  hits : Nat
  misses : Nat
  invalidations : Nat
  writes : Nat
deriving Repr, DecidableEq

/-- The `defaultTTLs` table initialised by the `CacheManager` constructor. -/
def initialDefaultTTLs : List (String × Int) :=
  [("profile", 5 * 60 * 1000),
   ("stats", 3 * 60 * 1000),
   ("lessons", 5 * 60 * 1000),
   ("streak", 3 * 60 * 1000),
   ("progress", 3 * 60 * 1000),
   ("default", 10 * 60 * 1000)]

/-- `this.defaultTTLs[namespace]` (an absent property reads as
`undefined`, modelled as `none`). -/
def lookupTTL (ttls : List (String × Int)) (ns : String) : Option Int :=
  (ttls.find? (fun p => p.1 == ns)).map (·.2)

/-- `class CacheManager` state: the entry map, statistics and the
per-namespace default-TTL table. The invalidation-listener map is
omitted (listeners never touch the cache state). -/
structure CacheManager where
  store : Store
  stats : CacheStats
  defaultTTLs : List (String × Int)
deriving Repr, DecidableEq

/-- `new CacheManager()`. -/
def CacheManager.init : CacheManager :=
  { store := [], stats := ⟨0, 0, 0, 0⟩, defaultTTLs := initialDefaultTTLs }

/-- `CacheManager._buildKey(key, namespace)`. -/
def buildKey (key ns : String) : String := ns ++ ":" ++ key

/-- The TTL chosen by `CacheManager.set`:
`ttl || this.defaultTTLs[namespace] || this.defaultTTLs.default` (the
innermost `0` stands for the unreachable case of a missing or falsy
`default` entry: it yields a never-valid TTL just as `undefined` would). -/
def resolveTTL (ttls : List (String × Int)) (ns : String) (ttl : Option Int) : Int :=
  jsOrInt ttl (jsOrInt (lookupTTL ttls ns) (jsOrInt (lookupTTL ttls "default") 0))

/-- `CacheManager.get(key, namespace)` at clock value `now`; returns the
updated manager together with the JS return value (`null` on a miss). -/
def CacheManager.get (m : CacheManager) (now : Int) (key : String) (ns : String) :
    CacheManager × JSValue :=
  let cacheKey := buildKey key ns
  match mapGet m.store cacheKey with
  | none =>
    ({ m with stats := { m.stats with misses := m.stats.misses + 1 } }, .vnull)
  | some entry =>
    if !entry.isValid now then
      ({ m with store := mapDelete m.store cacheKey,
                stats := { m.stats with invalidations := m.stats.invalidations + 1 } },
       .vnull)
    else
      ({ m with store := mapSet m.store cacheKey (entry.recordAccess now),
                stats := { m.stats with hits := m.stats.hits + 1 } },
       entry.data)

/-- `CacheManager.set(key, value, namespace, ttl)` at clock value `now`
(the JS method also returns `this`, which the model expresses by
returning the updated manager). -/
def CacheManager.set (m : CacheManager) (now : Int) (key : String) (value : JSValue)
    (ns : String) (ttl : Option Int) : CacheManager :=
  let cacheKey := buildKey key ns
  let finalTTL := resolveTTL m.defaultTTLs ns ttl
  let entry := CacheEntry.mkNew value finalTTL cacheKey now
  { m with store := mapSet m.store cacheKey entry,
           stats := { m.stats with writes := m.stats.writes + 1 } }

/-- `CacheManager.has(key, namespace)` at clock value `now`. -/
def CacheManager.has (m : CacheManager) (now : Int) (key : String) (ns : String) :
    CacheManager × Bool :=
  let cacheKey := buildKey key ns
  match mapGet m.store cacheKey with
  | none => (m, false)
  | some entry =>
    if !entry.isValid now then
      ({ m with store := mapDelete m.store cacheKey }, false)
    else
      (m, true)

/-- `CacheManager.delete(key, namespace)`; returns whether something was
removed, incrementing the invalidation counter when it was. -/
def CacheManager.delete (m : CacheManager) (key : String) (ns : String) :
    CacheManager × Bool :=
  let cacheKey := buildKey key ns
  match mapGet m.store cacheKey with
  | none => (m, false)
  | some _ =>
    ({ m with store := mapDelete m.store cacheKey,
              stats := { m.stats with invalidations := m.stats.invalidations + 1 } },
     true)

/-- `CacheManager.invalidate(key, namespace)` — delegates to `delete`. -/
def CacheManager.invalidate (m : CacheManager) (key : String) (ns : String) : CacheManager :=
  (m.delete key ns).1

/-- `CacheManager.clear(namespace)`: with a namespace, drop every entry
whose map key starts with `namespace + ":"`; without one, drop all. -/
def CacheManager.clear (m : CacheManager) (ns : Option String) : CacheManager :=
  match ns with
  | some n => { m with store := m.store.filter (fun p => !strStartsWith p.1 (n ++ ":")) }
  | none => { m with store := [] }

/-- `CacheManager.invalidatePattern(pattern, namespace)`. The compiled
regular expression `new RegExp(pattern)` enters the model as its test
function `test : String → Bool` (JS `regex.test` — an unanchored search).
The source applies it to the full map key of every entry whose key
starts with `namespace + ":"`, deletes the matches and returns how many
were removed. -/
def CacheManager.invalidatePattern (m : CacheManager) (test : String → Bool) (ns : String) :
    CacheManager × Nat :=
  let shouldDelete := fun (k : String) => strStartsWith k (ns ++ ":") && test k
  ({ m with store := m.store.filter (fun p => !shouldDelete p.1) },
   m.store.countP (fun p => shouldDelete p.1))

/-- The `entryCount` field of `CacheManager.getSizeStats()`: the number
of entries in the store. -/
def CacheManager.entryCount (m : CacheManager) : Nat := m.store.length

/-- One entry of the snapshot produced by `CacheManager.export()`. -/
structure ExportedEntry where
  data : JSValue
  ttl : Int
  age : Int
  isValid : Bool
  timeToLive : Int
  accessCount : Nat
deriving Repr, DecidableEq

/-- `CacheManager.export()` at clock value `now` (the method is named
`export` in the source, a reserved word here). -/
def CacheManager.exportCache (m : CacheManager) (now : Int) : List (String × ExportedEntry) :=
  m.store.map (fun p =>
    (p.1,
     { data := p.2.data,
       ttl := p.2.ttl,
       age := now - p.2.timestamp,
       isValid := p.2.isValid now,
       timeToLive := p.2.getTimeToLive now,
       accessCount := p.2.accessCount }))

/-- The entry `import` rebuilds for one exported record:
`new CacheEntry(value.data, value.ttl, key)` with
`entry.timestamp = Date.now() - (value.age || 0)` and
`entry.accessCount = value.accessCount || 0` (the `|| 0` guards are
identities here since both fields are always present in a snapshot). -/
def rebuiltEntry (key : String) (v : ExportedEntry) (now : Int) : CacheEntry :=
  { data := v.data, ttl := v.ttl, timestamp := now - v.age, key := key,
    accessCount := v.accessCount, lastAccessTime := now }

/-- `CacheManager.import(data)` at clock value `now` (named `import` in
the source, a reserved word here): clear the store, then `Map.set` each
record in snapshot order. -/
def CacheManager.importCache (m : CacheManager) (data : List (String × ExportedEntry))
    (now : Int) : CacheManager :=
  { m with store := data.foldl (fun st p => mapSet st p.1 (rebuiltEntry p.1 p.2 now)) [] }

/-! The cache-aware fetch wrapper (`src/services/cachedAPIService.js`). -/

/-- One row of the wrapper's `CACHE_CONFIG` table: a TTL and a cache
namespace per endpoint (the source field is called `namespace`, a
reserved word here). -/
structure CacheConfig where
  ttl : Int
  nspace : String
deriving Repr, DecidableEq

/-- The `CACHE_CONFIG` table of `cachedAPIService.js`. -/
def CACHE_CONFIG : List (String × CacheConfig) :=
  [("/lessons", ⟨5 * 60 * 1000, "lessons"⟩),
   ("/progress", ⟨3 * 60 * 1000, "progress"⟩),
   ("/streak", ⟨3 * 60 * 1000, "streak"⟩),
   ("/health", ⟨1 * 60 * 1000, "health"⟩)]

/-- `CachedAPIService.getCacheConfig(endpoint)` on the singleton's
default configuration (`setCacheConfig` is never exercised by the
properties below). -/
def getCacheConfig (endpoint : String) : CacheConfig :=
  match CACHE_CONFIG.find? (fun p => p.1 == endpoint) with
  | some p => p.2
  | none => ⟨10 * 60 * 1000, "default"⟩

/-- The `options` object of `cachedCall`, with the source's defaults;
`cacheKey = none` stands for the default `cacheKey = endpoint`. -/
structure CallOptions where
  strategy : String := "cache-first"
  cacheKey : Option String := none
  skipCache : Bool := false
deriving Repr, DecidableEq

/-- How a `cachedCall` returns to its caller, mirroring the distinct
return sites of the source: a cache hit returns
`{...cached, _source: 'cache'}`, the network-first fallback returns
`{...cached, _source: 'cache-fallback'}`, the fetch path returns the
fetcher's result unchanged, and an uncaught error propagates. -/
inductive CallResult where
  | fromCache (v : JSValue)
  | fromCacheFallback (v : JSValue)
  | fromNetwork (r : JSValue)
  | threw (e : JSValue)
deriving Repr, DecidableEq

/-- The full effect of one `cachedCall`: the cache state afterwards, what
the caller sees, and whether `fetcher()` was invoked. -/
structure CallOutcome where
  manager : CacheManager
  result : CallResult
  fetcherInvoked : Bool
deriving Repr, DecidableEq

/-- The fetch half of `cachedCall` (everything from `await fetcher()`
on): cache the result when `result?.success || (!result?.error)`, with
`dataToCache = result?.data || result`; on a thrown error fall back to a
cache read under `network-first` only, otherwise re-throw. -/
def fetchPhase (m : CacheManager) (now : Int) (cacheKey : String) (config : CacheConfig)
    (strategy : String) (fetcher : Except JSValue JSValue) : CallOutcome :=
  match fetcher with
  | .ok result =>
    if truthy result.optSuccess || !truthy result.optError then
      let dataToCache := if truthy result.optData then result.optData else result
      ⟨m.set now cacheKey dataToCache config.nspace (some config.ttl), .fromNetwork result, true⟩
    else
      ⟨m, .fromNetwork result, true⟩
  | .error e =>
    if strategy == "network-first" then
      let mc := m.get now cacheKey config.nspace
      if mc.2 != .vnull then ⟨mc.1, .fromCacheFallback mc.2, true⟩
      else ⟨mc.1, .threw e, true⟩
    else
      ⟨m, .threw e, true⟩

/-- `CachedAPIService.cachedCall(endpoint, fetcher, options)` at clock
value `now`. `skipCache` returns `fetcher()` directly; `cache-first`
tries the store and returns on a non-`null` read; every strategy then
reaches the fetch phase. -/
def cachedCall (m : CacheManager) (now : Int) (endpoint : String)
    (fetcher : Except JSValue JSValue) (options : CallOptions) : CallOutcome :=
  let cacheKey := options.cacheKey.getD endpoint
  if options.skipCache then
    match fetcher with
    | .ok r => ⟨m, .fromNetwork r, true⟩
    | .error e => ⟨m, .threw e, true⟩
  else
    let config := getCacheConfig endpoint
    if options.strategy == "cache-first" then
      let mc := m.get now cacheKey config.nspace
      if mc.2 != .vnull then ⟨mc.1, .fromCache mc.2, false⟩
      else fetchPhase mc.1 now cacheKey config options.strategy fetcher
    else
      fetchPhase m now cacheKey config options.strategy fetcher

/-- `CachedAPIService.completeLesson(id, score)`: the network mutation's
settled result enters as `result`; on a truthy `result.success` the two
hardcoded dependent entries are invalidated, and `result` is returned
unchanged either way. -/
def completeLesson (m : CacheManager) (result : JSValue) : CacheManager × JSValue :=
  if truthy result.optSuccess then
    (((m.invalidate "all_lessons" "lessons").invalidate "progress" "progress"), result)
  else
    (m, result)

/-! The startup warmer (`src/services/cacheWarmingService.js`). Only the
scheduling of `warmCache` is relevant to the claims: which tasks are
selected for a given priority threshold and in which tier order they
execute. Fetchers and timeouts do not influence that schedule. -/

/-- A registered warming task: its name (the `WARMING_TASKS` key) and
numeric priority. -/
structure WarmingTask where
  name : String
  priority : Int
deriving Repr, DecidableEq

/-- A stable sort by `le`, inserting each element after every earlier
element it does not strictly precede — the result JS `Array.sort`
guarantees for a consistent comparator (JS sort is stable). -/
def insertLe {α : Type} (le : α → α → Bool) (x : α) : List α → List α
  | [] => [x]
  | y :: ys => if le y x then y :: insertLe le x ys else x :: y :: ys

/-- Stable sort (insertion sort) by a boolean `le`. -/
def stableSortBy {α : Type} (le : α → α → Bool) (l : List α) : List α :=
  l.foldl (fun acc x => insertLe le x acc) []

/-- The decimal digits of a natural number as characters, with explicit
structural fuel (the value itself bounds the digit count). -/
def natDigitsAux : Nat → Nat → List Char
  | 0, _ => []
  | fuel + 1, n =>
    if n = 0 then []
    else natDigitsAux fuel (n / 10) ++ [Char.ofNat (48 + n % 10)]

/-- JS `String(n)` for an integral number: its decimal digits, with a
leading `'-'` when negative. -/
def jsIntDigits : Int → List Char
  | .ofNat 0 => ['0']
  | .ofNat m => natDigitsAux m m
  | .negSucc m => '-' :: natDigitsAux (m + 1) (m + 1)

/-- Lexicographic `<` on character lists by code unit — the string
comparison JS `<` performs (code points coincide with UTF-16 units for
the digits and `'-'` produced by `jsIntDigits`). -/
def listCharLt : List Char → List Char → Bool
  | [], [] => false
  | [], _ :: _ => true
  | _ :: _, [] => false
  | a :: as, b :: bs =>
    decide (a.toNat < b.toNat) || (a.toNat == b.toNat && listCharLt as bs)

/-- JS comparison `String(a) <= String(b)` on integers — the order
`Array.prototype.sort()` with NO comparator uses: elements are
converted to strings and compared by UTF-16 code units. -/
def jsDefaultLe (a b : Int) : Bool :=
  jsIntDigits a == jsIntDigits b || listCharLt (jsIntDigits a) (jsIntDigits b)

/-- One step of the `priorityGroups` construction: JS `Map` grouping in
first-occurrence order (`priorityGroups.get(task.priority).push(...)`). -/
def groupInsert (groups : List (Int × List WarmingTask)) (t : WarmingTask) :
    List (Int × List WarmingTask) :=
  if groups.any (fun g => g.1 == t.priority) then
    groups.map (fun g => if g.1 == t.priority then (g.1, g.2 ++ [t]) else g)
  else
    groups ++ [(t.priority, [t])]

/-- The tier schedule computed by `CacheWarmer.warmCache(priorityThreshold)`:
filter registered tasks by `task.priority <= priorityThreshold`, sort
them with the numeric comparator `(a, b) => a[1].priority - b[1].priority`,
group by priority into a `Map`, and order the tiers by
`Array.from(priorityGroups.keys()).sort()` — the DEFAULT string sort.
The returned list gives, in execution order, each tier's priority and
its task names (`Promise.allSettled` runs one whole tier before the loop
reaches the next). -/
def warmCachePlan (tasks : List WarmingTask) (priorityThreshold : Int) :
    List (Int × List String) :=
  let tasksToRun := stableSortBy (fun a b => decide (a.priority ≤ b.priority))
    (tasks.filter (fun t => decide (t.priority ≤ priorityThreshold)))
  let priorityGroups := tasksToRun.foldl groupInsert []
  let sortedPriorities := stableSortBy jsDefaultLe (priorityGroups.map (·.1))
  sortedPriorities.map (fun p =>
    (p, (((priorityGroups.find? (fun g => g.1 == p)).map (fun g => g.2.map (·.name))).getD [])))

/-! Definitions modelled from the spec's words, kept for refinement
comparison against the source-derived definitions above. -/

/-- The bare key of a namespaced map key: the key with the
`namespace + ":"` front part removed. -/
def bareKey (fullKey ns : String) : String := fullKey.drop (ns.length + 1)

/-- Following the spec's words for `invalidatePattern` (refinement
comparison only): the pattern is "tested against the bare key (not the
namespaced key) within the given namespace". -/
def invalidatePatternSpec (m : CacheManager) (test : String → Bool) (ns : String) :
    CacheManager × Nat :=
  let shouldDelete := fun (k : String) => strStartsWith k (ns ++ ":") && test (bareKey k ns)
  ({ m with store := m.store.filter (fun p => !shouldDelete p.1) },
   m.store.countP (fun p => shouldDelete p.1))

/-! Lemmas about the store map. -/

theorem mapGet_eq_find? (s : Store) (k : String) :
    mapGet s k = (s.find? (fun p => p.1 == k)).map (·.2) := by
  induction s with
  | nil => rfl
  | cons p ps ih =>
    by_cases h : p.1 = k
    · rw [List.find?_cons_of_pos _ (by simp [h])]
      simp [mapGet, h]
    · rw [List.find?_cons_of_neg _ (by simp [h])]
      simp [mapGet, h, ih]

theorem mapGet_eq_none_iff (s : Store) (k : String) :
    mapGet s k = none ↔ k ∉ s.map Prod.fst := by
  induction s with
  | nil => simp [mapGet]
  | cons p ps ih =>
    by_cases h : p.1 = k
    · simp [mapGet, h]
    · simp [mapGet, h, ih, Ne.symm h]

theorem mapGet_mapSet_self (s : Store) (k : String) (v : CacheEntry) :
    mapGet (mapSet s k v) k = some v := by
  induction s with
  | nil => simp [mapSet, mapGet]
  | cons p ps ih =>
    by_cases h : p.1 = k
    · simp [mapSet, mapGet, h]
    · simp [mapSet, mapGet, h, ih]

theorem mapGet_mapSet_ne (s : Store) (k k' : String) (v : CacheEntry) (h : k' ≠ k) :
    mapGet (mapSet s k v) k' = mapGet s k' := by
  induction s with
  | nil => simp [mapSet, mapGet, Ne.symm h]
  | cons p ps ih =>
    by_cases hp : p.1 = k
    · simp [mapSet, mapGet, hp, Ne.symm h]
    · by_cases hp' : p.1 = k'
      · simp [mapSet, mapGet, hp, hp', h]
      · simp [mapSet, mapGet, hp, hp', h, ih]

theorem mapGet_mapDelete_ne (s : Store) (k k' : String) (h : k' ≠ k) :
    mapGet (mapDelete s k) k' = mapGet s k' := by
  induction s with
  | nil => simp [mapDelete, mapGet]
  | cons p ps ih =>
    by_cases hp : p.1 = k
    · simp [mapDelete, mapGet, hp, Ne.symm h]
    · by_cases hp' : p.1 = k'
      · simp [mapDelete, mapGet, hp, hp', h]
      · simp [mapDelete, mapGet, hp, hp', h, ih]

theorem mapGet_mapDelete_self (s : Store) (k : String)
    (hnodup : (s.map Prod.fst).Nodup) : mapGet (mapDelete s k) k = none := by
  induction s with
  | nil => simp [mapDelete, mapGet]
  | cons p ps ih =>
    simp only [List.map_cons, List.nodup_cons] at hnodup
    by_cases hp : p.1 = k
    · have hdel : mapDelete (p :: ps) k = ps := by simp [mapDelete, hp]
      rw [hdel, mapGet_eq_none_iff, ← hp]
      exact hnodup.1
    · simp [mapDelete, mapGet, hp, ih hnodup.2]

theorem length_mapDelete (s : Store) (k : String) (e : CacheEntry)
    (h : mapGet s k = some e) : (mapDelete s k).length + 1 = s.length := by
  induction s with
  | nil => simp [mapGet] at h
  | cons p ps ih =>
    by_cases hp : p.1 = k
    · simp [mapDelete, hp]
    · simp only [mapGet, hp] at h
      simp only [beq_iff_eq, hp, if_neg, ite_false] at h
      simp [mapDelete, hp, ih h]

theorem mem_keys_mapSet (s : Store) (k a : String) (v : CacheEntry) :
    a ∈ (mapSet s k v).map Prod.fst ↔ a ∈ s.map Prod.fst ∨ a = k := by
  induction s with
  | nil => simp [mapSet]
  | cons p ps ih =>
    by_cases hp : p.1 = k
    · simp [mapSet, hp]
      tauto
    · simp [mapSet, hp, ih]
      tauto

theorem nodup_keys_mapSet (s : Store) (k : String) (v : CacheEntry)
    (hnodup : (s.map Prod.fst).Nodup) : ((mapSet s k v).map Prod.fst).Nodup := by
  induction s with
  | nil => simp [mapSet]
  | cons p ps ih =>
    simp only [List.map_cons, List.nodup_cons] at hnodup
    by_cases hp : p.1 = k
    · simp only [mapSet, hp, beq_self_eq_true, if_true, List.map_cons, List.nodup_cons]
      exact ⟨by rw [← hp]; exact hnodup.1, hnodup.2⟩
    · simp only [mapSet, beq_iff_eq, hp, ite_false, List.map_cons, List.nodup_cons]
      refine ⟨?_, ih hnodup.2⟩
      rw [mem_keys_mapSet]
      push_neg
      exact ⟨hnodup.1, hp⟩

theorem countP_key_mapSet (s : Store) (k : String) (v : CacheEntry)
    (hnodup : (s.map Prod.fst).Nodup) :
    (mapSet s k v).countP (fun p => p.1 == k) = 1 := by
  induction s with
  | nil => simp [mapSet, List.countP_cons]
  | cons p ps ih =>
    simp only [List.map_cons, List.nodup_cons] at hnodup
    by_cases hp : p.1 = k
    · simp only [mapSet, hp, beq_self_eq_true, if_true, List.countP_cons, beq_self_eq_true,
        if_true]
      have hzero : ps.countP (fun p => p.1 == k) = 0 := by
        rw [List.countP_eq_zero]
        intro q hq
        simp only [beq_iff_eq]
        intro hqk
        apply hnodup.1
        have hmem := List.mem_map_of_mem Prod.fst hq
        rwa [hqk, ← hp] at hmem
      simp [hzero]
    · simp only [mapSet, beq_iff_eq, hp, ite_false, List.countP_cons]
      simp [hp, ih hnodup.2]

theorem mapGet_filter_key (s : Store) (pred : String → Bool) (k : String) :
    mapGet (s.filter (fun p => pred p.1)) k = if pred k then mapGet s k else none := by
  induction s with
  | nil => simp [mapGet]
  | cons p ps ih =>
    by_cases hp : p.1 = k
    · by_cases hpr : pred k
      · simp [List.filter_cons, hp, hpr, mapGet]
      · simp [List.filter_cons, hp, hpr, mapGet, ih]
    · by_cases hpp : pred p.1
      · simp [List.filter_cons, hpp, mapGet, hp, ih]
      · simp [List.filter_cons, hpp, mapGet, hp, ih]

theorem countP_add_length_filter_not {α : Type} (p : α → Bool) (l : List α) :
    l.countP p + (l.filter (fun a => !p a)).length = l.length := by
  induction l with
  | nil => simp
  | cons a l ih =>
    by_cases h : p a
    · simp [List.countP_cons, List.filter_cons, h, ← ih]
      omega
    · simp only [Bool.not_eq_true] at h
      simp [List.countP_cons, List.filter_cons, h, ← ih]
      omega

theorem mapSet_of_absent (s : Store) (k : String) (v : CacheEntry)
    (h : mapGet s k = none) : mapSet s k v = s ++ [(k, v)] := by
  induction s with
  | nil => simp [mapSet]
  | cons p ps ih =>
    by_cases hp : p.1 = k
    · simp [mapGet, hp] at h
    · simp only [mapGet, beq_iff_eq, hp, ite_false] at h
      simp [mapSet, hp, ih h]

theorem mapGet_append_of_none (a b : Store) (k : String) (h : mapGet a k = none) :
    mapGet (a ++ b) k = mapGet b k := by
  induction a with
  | nil => simp
  | cons p ps ih =>
    by_cases hp : p.1 = k
    · simp [mapGet, hp] at h
    · simp only [mapGet, beq_iff_eq, hp, ite_false] at h
      simp [mapGet, hp, ih h]

theorem mapDelete_of_absent (s : Store) (k : String) (h : mapGet s k = none) :
    mapDelete s k = s := by
  induction s with
  | nil => rfl
  | cons p ps ih =>
    by_cases hp : p.1 = k
    · simp [mapGet, hp] at h
    · simp only [mapGet, beq_iff_eq, hp, ite_false] at h
      simp [mapDelete, hp, ih h]

theorem mem_keys_mapDelete (s : Store) (k a : String)
    (h : a ∈ (mapDelete s k).map Prod.fst) : a ∈ s.map Prod.fst := by
  induction s with
  | nil => simp [mapDelete] at h
  | cons p ps ih =>
    by_cases hp : p.1 = k
    · simp only [mapDelete, hp, beq_self_eq_true, if_true] at h
      simp only [List.map_cons]
      exact List.mem_cons_of_mem p.1 h
    · simp only [mapDelete, beq_iff_eq, hp, ite_false, List.map_cons] at h ⊢
      cases h with
      | head => exact List.mem_cons_self _ _
      | tail _ h => exact List.mem_cons_of_mem _ (ih h)

theorem nodup_keys_mapDelete (s : Store) (k : String)
    (hnodup : (s.map Prod.fst).Nodup) : ((mapDelete s k).map Prod.fst).Nodup := by
  induction s with
  | nil => simp [mapDelete]
  | cons p ps ih =>
    simp only [List.map_cons, List.nodup_cons] at hnodup
    by_cases hp : p.1 = k
    · simp only [mapDelete, hp, beq_self_eq_true, if_true]
      exact hnodup.2
    · simp only [mapDelete, beq_iff_eq, hp, ite_false, List.map_cons, List.nodup_cons]
      exact ⟨fun hm => hnodup.1 (mem_keys_mapDelete ps k p.1 hm), ih hnodup.2⟩

/-! Lemmas about namespaced keys. -/

theorem buildKey_data (k ns : String) :
    (buildKey k ns).data = ns.data ++ ':' :: k.data := by
  simp [buildKey]

theorem append_colon_cancel (a : List Char) : ∀ (b k l : List Char), ':' ∉ a → ':' ∉ b →
    a ++ ':' :: k = b ++ ':' :: l → a = b ∧ k = l := by
  induction a with
  | nil =>
    intro b k l _ hb h
    cases b with
    | nil => simpa using h
    | cons c bs =>
      simp only [List.nil_append, List.cons_append, List.cons.injEq] at h
      exact absurd (h.1 ▸ List.mem_cons_self c bs) hb
  | cons c as ih =>
    intro b k l ha hb h
    cases b with
    | nil =>
      simp only [List.cons_append, List.nil_append, List.cons.injEq] at h
      exact absurd (h.1.symm ▸ List.mem_cons_self c as) ha
    | cons d bs =>
      simp only [List.cons_append, List.cons.injEq] at h
      have ha' : ':' ∉ as := fun hm => ha (List.mem_cons_of_mem c hm)
      have hb' : ':' ∉ bs := fun hm => hb (List.mem_cons_of_mem d hm)
      obtain ⟨hab, hkl⟩ := ih bs k l ha' hb' h.2
      exact ⟨by rw [h.1, hab], hkl⟩

theorem buildKey_inj (k₁ ns₁ k₂ ns₂ : String)
    (h₁ : ':' ∉ ns₁.data) (h₂ : ':' ∉ ns₂.data)
    (h : buildKey k₁ ns₁ = buildKey k₂ ns₂) : ns₁ = ns₂ ∧ k₁ = k₂ := by
  have hd : (buildKey k₁ ns₁).data = (buildKey k₂ ns₂).data := by rw [h]
  rw [buildKey_data, buildKey_data] at hd
  obtain ⟨hns, hk⟩ := append_colon_cancel _ _ _ _ h₁ h₂ hd
  exact ⟨String.ext hns, String.ext hk⟩

theorem buildKey_ne (k₁ ns₁ k₂ ns₂ : String)
    (h₁ : ':' ∉ ns₁.data) (h₂ : ':' ∉ ns₂.data)
    (hne : ns₁ ≠ ns₂ ∨ k₁ ≠ k₂) : buildKey k₁ ns₁ ≠ buildKey k₂ ns₂ := by
  intro h
  obtain ⟨hns, hk⟩ := buildKey_inj k₁ ns₁ k₂ ns₂ h₁ h₂ h
  cases hne with
  | inl h => exact h hns
  | inr h => exact h hk

theorem listStartsWith_append_self (a t : List Char) :
    listStartsWith (a ++ t) a = true := by
  induction a with
  | nil => cases t <;> rfl
  | cons c as ih => simpa [listStartsWith] using ih

theorem strStartsWith_buildKey_self (k ns : String) :
    strStartsWith (buildKey k ns) (ns ++ ":") = true := by
  have h1 : (buildKey k ns).data = (ns ++ ":").data ++ k.data := by
    simp [buildKey]
  rw [strStartsWith, h1]
  exact listStartsWith_append_self _ _

theorem listStartsWith_colon_ne (a : List Char) : ∀ (k b : List Char), ':' ∉ a → ':' ∉ b →
    a ≠ b → listStartsWith (a ++ ':' :: k) (b ++ [':']) = false := by
  induction a with
  | nil =>
    intro k b _ hb hne
    cases b with
    | nil => exact absurd rfl hne
    | cons d bs =>
      have hd : ':' ≠ d := fun h => hb (h ▸ List.mem_cons_self d bs)
      simp [listStartsWith, hd]
  | cons c as ih =>
    intro k b ha hb hne
    cases b with
    | nil =>
      have hc : c ≠ ':' := fun h => ha (h ▸ List.mem_cons_self c as)
      simp [listStartsWith, hc]
    | cons d bs =>
      by_cases hcd : c = d
      · have ha' : ':' ∉ as := fun hm => ha (List.mem_cons_of_mem c hm)
        have hb' : ':' ∉ bs := fun hm => hb (List.mem_cons_of_mem d hm)
        have hne' : as ≠ bs := fun h => hne (by rw [hcd, h])
        simpa [listStartsWith, hcd] using ih k bs ha' hb' hne'
      · simp [listStartsWith, hcd]

theorem strStartsWith_buildKey_ne (k ns ns' : String)
    (h : ':' ∉ ns.data) (h' : ':' ∉ ns'.data) (hne : ns ≠ ns') :
    strStartsWith (buildKey k ns) (ns' ++ ":") = false := by
  have h1 : (ns' ++ ":").data = ns'.data ++ [':'] := by simp
  rw [strStartsWith, buildKey_data, h1]
  exact listStartsWith_colon_ne _ _ _ h h' (fun he => hne (String.ext he))

/-! Claim C5. -/

/-- C5: for every stored entry, `get` returns the stored value iff
`now - writeTime < ttl` at the moment of the call, and in that case
increments the hit counter and updates the entry's access bookkeeping;
if the entry exists but is expired, `get` deletes it from internal
storage (the entry count decreases), increments the invalidation
counter, and returns absent (`null`); on an outright miss it increments
the miss counter and returns absent. The embedding of `get` is a total
function, so no case can throw. -/
theorem C5_get_ttl_and_stats (m : CacheManager) (now : Int) (key ns : String)
    (hnodup : (m.store.map Prod.fst).Nodup) :
    (∀ e, mapGet m.store (buildKey key ns) = some e →
      ((now - e.timestamp < e.ttl →
          (m.get now key ns).2 = e.data ∧
          (m.get now key ns).1.stats.hits = m.stats.hits + 1 ∧
          (m.get now key ns).1.stats.misses = m.stats.misses ∧
          (m.get now key ns).1.stats.invalidations = m.stats.invalidations ∧
          mapGet (m.get now key ns).1.store (buildKey key ns)
            = some { e with accessCount := e.accessCount + 1, lastAccessTime := now }) ∧
        (e.ttl ≤ now - e.timestamp →
          (m.get now key ns).2 = .vnull ∧
          mapGet (m.get now key ns).1.store (buildKey key ns) = none ∧
          (m.get now key ns).1.entryCount + 1 = m.entryCount ∧
          (m.get now key ns).1.stats.invalidations = m.stats.invalidations + 1 ∧
          (m.get now key ns).1.stats.hits = m.stats.hits ∧
          (m.get now key ns).1.stats.misses = m.stats.misses))) ∧
    (mapGet m.store (buildKey key ns) = none →
      (m.get now key ns).2 = .vnull ∧
      (m.get now key ns).1.store = m.store ∧
      (m.get now key ns).1.stats.misses = m.stats.misses + 1 ∧
      (m.get now key ns).1.stats.hits = m.stats.hits ∧
      (m.get now key ns).1.stats.invalidations = m.stats.invalidations) := by
  constructor
  · intro e he
    constructor
    · intro hv
      have hvb : e.isValid now = true := by
        simp [CacheEntry.isValid]
        omega
      have hred : m.get now key ns
          = ({ m with store := mapSet m.store (buildKey key ns) (e.recordAccess now),
                      stats := { m.stats with hits := m.stats.hits + 1 } }, e.data) := by
        simp [CacheManager.get, he, hvb]
      rw [hred]
      exact ⟨rfl, rfl, rfl, rfl, by rw [mapGet_mapSet_self]; rfl⟩
    · intro hv
      have hvb : e.isValid now = false := by
        simp [CacheEntry.isValid]
        omega
      have hred : m.get now key ns
          = ({ m with store := mapDelete m.store (buildKey key ns),
                      stats := { m.stats with invalidations := m.stats.invalidations + 1 } },
             .vnull) := by
        simp [CacheManager.get, he, hvb]
      rw [hred]
      refine ⟨rfl, mapGet_mapDelete_self _ _ hnodup, ?_, rfl, rfl, rfl⟩
      simpa [CacheManager.entryCount] using length_mapDelete m.store (buildKey key ns) e he
  · intro he
    simp [CacheManager.get, he]

/-- Witness for C5 at a concrete valid hit. -/
theorem C5_get_ttl_and_stats_witness :
    ((CacheManager.init.set 0 "k" (.vnum 7) "default" none).get 5 "k" "default").2 = .vnum 7 := by
  have h := (C5_get_ttl_and_stats (CacheManager.init.set 0 "k" (.vnum 7) "default" none)
      5 "k" "default" (by decide)).1
    { data := .vnum 7, ttl := 600000, timestamp := 0, key := "default:k",
      accessCount := 0, lastAccessTime := 0 } (by decide)
  exact (h.1 (by decide)).1

/-! Claim C3. -/

/-- C3 counterexample: `_buildKey` joins namespace and key with a bare
`":"`, so the distinct pairs `("a", "b:x")` and `("a:b", "x")` collide
on the map key `"a:b:x"`: writing the second pair overwrites the first
pair's entry (a read of `("a", "b:x")` yields the second write's value
and only one entry exists), refuting uniqueness for all pairs of
strings. -/
theorem C3_uniqueness_counterexample :
    (("a", "b:x") : String × String) ≠ ("a:b", "x") ∧
    (((CacheManager.init.set 0 "b:x" (.vnum 1) "a" none).set 0 "x" (.vnum 2) "a:b" none).get
        0 "b:x" "a").2 = .vnum 2 ∧
    ((CacheManager.init.set 0 "b:x" (.vnum 1) "a" none).set 0 "x" (.vnum 2) "a:b" none).entryCount
      = 1 :=
  ⟨by decide, by decide, by decide⟩

/-- C3 amended: provided the namespace strings do not contain the `':'`
separator, namespace and key together uniquely address one entry:
`set`, `get` and `delete` on one (namespace, key) pair leave any
distinct pair's entry untouched, clearing one namespace leaves a
different namespace intact, and writing the same (namespace, key) twice
replaces the previous entry so that the second value is read back and
(for a duplicate-free store, as every reachable store is) exactly one
entry remains for that pair. -/
theorem C3_namespace_isolation_amended (m : CacheManager) (now now' : Int)
    (ns₁ k₁ ns₂ k₂ : String) (v v' : JSValue) (ttl ttl' : Option Int)
    (h₁ : ':' ∉ ns₁.data) (h₂ : ':' ∉ ns₂.data) (hne : ns₁ ≠ ns₂ ∨ k₁ ≠ k₂) :
    mapGet ((m.set now k₁ v ns₁ ttl).store) (buildKey k₂ ns₂)
      = mapGet m.store (buildKey k₂ ns₂) ∧
    mapGet ((m.delete k₁ ns₁).1.store) (buildKey k₂ ns₂)
      = mapGet m.store (buildKey k₂ ns₂) ∧
    mapGet ((m.get now k₁ ns₁).1.store) (buildKey k₂ ns₂)
      = mapGet m.store (buildKey k₂ ns₂) ∧
    (ns₁ ≠ ns₂ →
      mapGet ((m.clear (some ns₁)).store) (buildKey k₂ ns₂)
        = mapGet m.store (buildKey k₂ ns₂)) ∧
    (mapGet (((m.set now k₁ v ns₁ ttl).set now' k₁ v' ns₁ ttl').store) (buildKey k₁ ns₁)).map
        (fun e => e.data) = some v' ∧
    ((m.store.map Prod.fst).Nodup →
      ((m.set now k₁ v ns₁ ttl).set now' k₁ v' ns₁ ttl').store.countP
          (fun p => p.1 == buildKey k₁ ns₁) = 1) := by
  have hkey : buildKey k₂ ns₂ ≠ buildKey k₁ ns₁ :=
    Ne.symm (buildKey_ne k₁ ns₁ k₂ ns₂ h₁ h₂ hne)
  refine ⟨?_, ?_, ?_, ?_, ?_, ?_⟩
  · exact mapGet_mapSet_ne _ _ _ _ hkey
  · cases hd : mapGet m.store (buildKey k₁ ns₁) with
    | none => simp [CacheManager.delete, hd]
    | some e =>
      simp only [CacheManager.delete, hd]
      exact mapGet_mapDelete_ne _ _ _ hkey
  · cases hd : mapGet m.store (buildKey k₁ ns₁) with
    | none => simp [CacheManager.get, hd]
    | some e =>
      cases hv : e.isValid now with
      | false =>
        simp only [CacheManager.get, hd, hv, Bool.not_false, if_true]
        exact mapGet_mapDelete_ne _ _ _ hkey
      | true =>
        simp only [CacheManager.get, hd, hv, Bool.not_true, Bool.false_eq_true, if_false]
        exact mapGet_mapSet_ne _ _ _ _ hkey
  · intro hns
    have hsw : strStartsWith (buildKey k₂ ns₂) (ns₁ ++ ":") = false :=
      strStartsWith_buildKey_ne k₂ ns₂ ns₁ h₂ h₁ (Ne.symm hns)
    simp only [CacheManager.clear]
    have hfk := mapGet_filter_key m.store (fun kk => !strStartsWith kk (ns₁ ++ ":"))
      (buildKey k₂ ns₂)
    rw [hsw] at hfk
    simpa using hfk
  · rw [CacheManager.set, CacheManager.set]
    simp only
    rw [mapGet_mapSet_self]
    rfl
  · intro hnodup
    rw [CacheManager.set, CacheManager.set]
    simp only
    exact countP_key_mapSet _ _ _ (nodup_keys_mapSet _ _ _ hnodup)

/-- Witness for C3's amended theorem: key `"x"` in namespace `"a"` and
key `"x"` in namespace `"b"` are independent under `set`. -/
theorem C3_namespace_isolation_amended_witness :
    mapGet ((CacheManager.init.set 0 "x" (.vnum 1) "a" none).store) (buildKey "x" "b")
      = mapGet CacheManager.init.store (buildKey "x" "b") :=
  (C3_namespace_isolation_amended CacheManager.init 0 0 "a" "x" "b" "x" (.vnum 1) (.vnum 2)
    none none (by decide) (by decide) (Or.inl (by decide))).1

/-! Claim C4. -/

/-- C4 counterexample: `set` with an explicit TTL of `0` does not expire
immediately — `0` is falsy under the JS `ttl || default` chain, so the
entry gets the `"lessons"` namespace default of 300000 ms, and a
subsequent `get` returns the stored value instead of treating it as
absent. -/
theorem C4_zero_ttl_counterexample :
    ((CacheManager.init.set 0 "k" (.vnum 5) "lessons" (some 0)).get 1 "k" "lessons").2
      = .vnum 5 ∧
    (mapGet (CacheManager.init.set 0 "k" (.vnum 5) "lessons" (some 0)).store
        (buildKey "k" "lessons")).map (fun e => e.ttl) = some 300000 :=
  ⟨by decide, by decide⟩

/-- C4 amended: only an explicit NEGATIVE ttl produces an entry that is
expired immediately (every `get` or `has` at or after the write treats
it as absent); an explicit ttl of zero is falsy under JS `||` and falls
back to the namespace default, so with a usable default the entry stays
readable until that default elapses. -/
theorem C4_nonpositive_ttl_amended (m : CacheManager) (now now' : Int) (key ns : String)
    (v : JSValue) (t : Int) (ht : t < 0) (hnow : now ≤ now') :
    ((m.set now key v ns (some t)).get now' key ns).2 = .vnull ∧
    ((m.set now key v ns (some t)).has now' key ns).2 = false ∧
    (∀ d, lookupTTL m.defaultTTLs ns = some d → d ≠ 0 → now' - now < d →
      ((m.set now key v ns (some 0)).get now' key ns).2 = v) := by
  have httl : resolveTTL m.defaultTTLs ns (some t) = t := by
    simp [resolveTTL, jsOrInt]
    omega
  have hentry : mapGet ((m.set now key v ns (some t)).store) (buildKey key ns)
      = some (CacheEntry.mkNew v t (buildKey key ns) now) := by
    rw [CacheManager.set]
    simp only [httl]
    exact mapGet_mapSet_self _ _ _
  have hinvalid : (CacheEntry.mkNew v t (buildKey key ns) now).isValid now' = false := by
    simp [CacheEntry.mkNew, CacheEntry.isValid]
    omega
  refine ⟨?_, ?_, ?_⟩
  · simp [CacheManager.get, hentry, hinvalid]
  · simp [CacheManager.has, hentry, hinvalid]
  · intro d hd hd0 hvalid
    have httl0 : resolveTTL m.defaultTTLs ns (some 0) = d := by
      simp [resolveTTL, hd, jsOrInt, hd0]
    have hentry0 : mapGet ((m.set now key v ns (some 0)).store) (buildKey key ns)
        = some (CacheEntry.mkNew v d (buildKey key ns) now) := by
      rw [CacheManager.set]
      simp only [httl0]
      exact mapGet_mapSet_self _ _ _
    have hvalid0 : (CacheEntry.mkNew v d (buildKey key ns) now).isValid now' = true := by
      simp [CacheEntry.mkNew, CacheEntry.isValid]
      omega
    simp only [CacheManager.get, hentry0, hvalid0, Bool.not_true, Bool.false_eq_true, if_false]
    rfl

/-- Witness for C4's amended theorem at a concrete negative TTL. -/
theorem C4_nonpositive_ttl_amended_witness :
    ((CacheManager.init.set 0 "k" (.vnum 5) "lessons" (some (-1))).get 1 "k" "lessons").2
      = .vnull :=
  (C4_nonpositive_ttl_amended CacheManager.init 0 1 "k" "lessons" (.vnum 5) (-1)
    (by decide) (by decide)).1

/-! Claim C2. -/

/-- C2 counterexample: `invalidatePattern` tests the regular expression
against the FULL namespaced map key, not the bare key. With the single
entry at key `"x"` in namespace `"a"` and the pattern `"^x$"` (whose JS
test function is equality with `"x"`), the bare key matches — the claim
predicts one deletion, as the spec-worded model
`invalidatePatternSpec` computes — but the code tests `"a:x"`, deletes
nothing, returns 0, and the entry stays retrievable. -/
theorem C2_invalidatePattern_counterexample :
    ((CacheManager.init.set 0 "x" (.vnum 1) "a" none).invalidatePattern
        (fun s => s == "x") "a").2 = 0 ∧
    (invalidatePatternSpec (CacheManager.init.set 0 "x" (.vnum 1) "a" none)
        (fun s => s == "x") "a").2 = 1 ∧
    ((((CacheManager.init.set 0 "x" (.vnum 1) "a" none).invalidatePattern
        (fun s => s == "x") "a").1).get 0 "x" "a").2 = .vnum 1 :=
  ⟨by decide, by decide, by decide⟩

/-- C2 amended: `invalidatePattern(p, ns)` tests the regular expression
compiled from `p` against the FULL namespaced key `ns ++ ":" ++ key` (JS
unanchored `test`), deletes exactly the entries of namespace `ns` whose
full key matches, and returns the number of entries removed (the entry
count drops by exactly the returned count); entries whose full key does
not match remain retrievable. -/
theorem C2_invalidatePattern_amended (m : CacheManager) (test : String → Bool)
    (ns k : String) :
    (test (buildKey k ns) = true →
      mapGet ((m.invalidatePattern test ns).1.store) (buildKey k ns) = none) ∧
    (test (buildKey k ns) = false →
      mapGet ((m.invalidatePattern test ns).1.store) (buildKey k ns)
        = mapGet m.store (buildKey k ns)) ∧
    (m.invalidatePattern test ns).2 + (m.invalidatePattern test ns).1.entryCount
      = m.entryCount := by
  have hself : strStartsWith (buildKey k ns) (ns ++ ":") = true :=
    strStartsWith_buildKey_self k ns
  have hfk := mapGet_filter_key m.store
    (fun kk => !(strStartsWith kk (ns ++ ":") && test kk)) (buildKey k ns)
  refine ⟨?_, ?_, ?_⟩
  · intro ht
    rw [hself, ht] at hfk
    simpa [CacheManager.invalidatePattern] using hfk
  · intro ht
    rw [hself, ht] at hfk
    simpa [CacheManager.invalidatePattern] using hfk
  · simp only [CacheManager.invalidatePattern, CacheManager.entryCount]
    exact countP_add_length_filter_not
      (fun p => strStartsWith p.1 (ns ++ ":") && test p.1) m.store

/-- Witness for C2's amended theorem: a test matching the full key
`"a:x"` deletes that entry. -/
theorem C2_invalidatePattern_amended_witness :
    mapGet (((CacheManager.init.set 0 "x" (.vnum 1) "a" none).invalidatePattern
        (fun s => s == "a:x") "a").1.store) (buildKey "x" "a") = none :=
  (C2_invalidatePattern_amended (CacheManager.init.set 0 "x" (.vnum 1) "a" none)
    (fun s => s == "a:x") "a" "x").1 (by decide)

/-- Every path of the fetch phase invokes the fetcher. -/
theorem fetchPhase_invoked (m : CacheManager) (now : Int) (cacheKey : String)
    (config : CacheConfig) (strategy : String) (fetcher : Except JSValue JSValue) :
    (fetchPhase m now cacheKey config strategy fetcher).fetcherInvoked = true := by
  cases fetcher with
  | ok r =>
    simp only [fetchPhase]
    split <;> rfl
  | error e =>
    simp only [fetchPhase]
    split
    · split <;> rfl
    · rfl

/-- With `skipCache = false` and a strategy other than `cache-first`,
`cachedCall` is exactly the fetch phase. -/
theorem cachedCall_eq_fetchPhase (m : CacheManager) (now : Int) (endpoint : String)
    (fetcher : Except JSValue JSValue) (opts : CallOptions)
    (hs : opts.skipCache = false) (h : (opts.strategy == "cache-first") = false) :
    cachedCall m now endpoint fetcher opts
      = fetchPhase m now (opts.cacheKey.getD endpoint) (getCacheConfig endpoint)
          opts.strategy fetcher := by
  simp [cachedCall, hs, h]

/-! Claim C1. -/

/-- C1 counterexample: `cachedCall` has no `cache-only` branch. With a
valid entry cached for endpoint `"e"` and `options.strategy =
"cache-only"`, the call does not return the stored value and does not
throw a cache-miss error: it invokes the fetcher and returns the
network result. -/
theorem C1_cache_only_counterexample :
    ((CacheManager.init.set 0 "e" (.vnum 1) "default" none).get 0 "e" "default").2
      = .vnum 1 ∧
    (cachedCall (CacheManager.init.set 0 "e" (.vnum 1) "default" none) 0 "e"
        (.ok (.vnum 2)) { strategy := "cache-only" }).fetcherInvoked = true ∧
    (cachedCall (CacheManager.init.set 0 "e" (.vnum 1) "default" none) 0 "e"
        (.ok (.vnum 2)) { strategy := "cache-only" }).result = .fromNetwork (.vnum 2) :=
  ⟨by decide, by decide, by decide⟩

/-- C1 amended: `cachedCall` does not implement `cache-only`; the
strategy string falls through the `cache-first` test and behaves exactly
like the generic fetch path (identical to `network-only`): the cache
store is never read, the fetcher is always invoked, successful results
are written through, and a fetcher error is propagated with the cache
state untouched — no "cache miss / no data available" error exists in
`cachedCall`. (That error is thrown by the `cache-only` branch of the
separate `useCachedAPI.execute` hook, which claim C1 does not cite.) -/
theorem C1_cache_only_amended (m : CacheManager) (now : Int) (endpoint : String)
    (fetcher : Except JSValue JSValue) (opts : CallOptions)
    (h : opts.strategy = "cache-only") :
    cachedCall m now endpoint fetcher opts
      = cachedCall m now endpoint fetcher { opts with strategy := "network-only" } ∧
    (cachedCall m now endpoint fetcher opts).fetcherInvoked = true ∧
    (∀ e, fetcher = .error e →
      (cachedCall m now endpoint fetcher opts).result = .threw e ∧
      (cachedCall m now endpoint fetcher opts).manager = m) := by
  cases hs : opts.skipCache with
  | true =>
    cases fetcher with
    | ok r =>
      refine ⟨by simp [cachedCall, hs], by simp [cachedCall, hs], ?_⟩
      intro e he
      exact absurd he (by simp)
    | error e =>
      refine ⟨by simp [cachedCall, hs], by simp [cachedCall, hs], ?_⟩
      intro e' he
      simp only [Except.error.injEq] at he
      subst he
      exact ⟨by simp [cachedCall, hs], by simp [cachedCall, hs]⟩
  | false =>
    have hcf : (opts.strategy == "cache-first") = false := by simp [h]
    have hcf' : (({ opts with strategy := "network-only" } : CallOptions).strategy
        == "cache-first") = false := by simp
    have heq1 := cachedCall_eq_fetchPhase m now endpoint fetcher opts hs hcf
    have heq2 := cachedCall_eq_fetchPhase m now endpoint fetcher
      { opts with strategy := "network-only" } hs hcf'
    rw [hs] at heq2
    have hns : ∀ f : Except JSValue JSValue,
        fetchPhase m now (opts.cacheKey.getD endpoint) (getCacheConfig endpoint)
          opts.strategy f
        = fetchPhase m now (opts.cacheKey.getD endpoint) (getCacheConfig endpoint)
          "network-only" f := by
      intro f
      cases f with
      | ok r => rfl
      | error e => simp [fetchPhase, h]
    refine ⟨?_, ?_, ?_⟩
    · rw [heq1, heq2]
      exact hns fetcher
    · rw [heq1]
      exact fetchPhase_invoked _ _ _ _ _ _
    · intro e he
      subst he
      rw [heq1]
      constructor
      · simp [fetchPhase, h]
      · simp [fetchPhase, h]

/-- Witness for C1's amended theorem: the fetcher is invoked under
`cache-only`. -/
theorem C1_cache_only_amended_witness :
    (cachedCall CacheManager.init 0 "e" (.ok (.vnum 2))
        { strategy := "cache-only" }).fetcherInvoked = true :=
  (C1_cache_only_amended CacheManager.init 0 "e" (.ok (.vnum 2))
    { strategy := "cache-only" } rfl).2.1

/-- Helper: a cache-first `cachedCall` whose cache read yields `null`
reaches the fetch phase, so the fetcher is invoked. -/
theorem cachedCall_cacheFirst_invoked (m : CacheManager) (now : Int) (ep : String)
    (fetcher : Except JSValue JSValue) (opts : CallOptions)
    (hstrat : opts.strategy = "cache-first") (hskip : opts.skipCache = false)
    (h : (m.get now (opts.cacheKey.getD ep) (getCacheConfig ep).nspace).2 = .vnull) :
    (cachedCall m now ep fetcher opts).fetcherInvoked = true := by
  have hbeq : (opts.strategy == "cache-first") = true := by simp [hstrat]
  simp only [cachedCall, hskip, Bool.false_eq_true, if_false, hbeq, if_true]
  rw [h]
  simp only [bne_self_eq_false, Bool.false_eq_true, if_false]
  exact fetchPhase_invoked _ _ _ _ _ _

/-- Helper: `invalidate` always leaves the store equal to `mapDelete` of
the built key (when the key is absent, `mapDelete` is the identity). -/
theorem invalidate_store (m : CacheManager) (k ns : String) :
    (m.invalidate k ns).store = mapDelete m.store (buildKey k ns) := by
  cases hd : mapGet m.store (buildKey k ns) with
  | none =>
    simp [CacheManager.invalidate, CacheManager.delete, hd, mapDelete_of_absent _ _ hd]
  | some e => simp [CacheManager.invalidate, CacheManager.delete, hd]

/-! Claim C6. -/

/-- C6: a successful `completeLesson` mutation (truthy `result.success`)
deletes exactly the hardcoded dependent entries — key `"all_lessons"`
in namespace `"lessons"` and key `"progress"` in namespace
`"progress"` — leaving every other entry untouched, so that a
subsequent cache-first read of all lessons misses and invokes the
fetcher; a failed mutation leaves the cache manager completely
unchanged. The network result itself is returned unchanged. -/
theorem C6_mutation_invalidation (m : CacheManager) (result : JSValue) (now : Int)
    (fetcher : Except JSValue JSValue) (hnodup : (m.store.map Prod.fst).Nodup) :
    (completeLesson m result).2 = result ∧
    (truthy result.optSuccess = true →
      mapGet (completeLesson m result).1.store (buildKey "all_lessons" "lessons") = none ∧
      mapGet (completeLesson m result).1.store (buildKey "progress" "progress") = none ∧
      (∀ k, k ≠ buildKey "all_lessons" "lessons" → k ≠ buildKey "progress" "progress" →
        mapGet (completeLesson m result).1.store k = mapGet m.store k) ∧
      (cachedCall (completeLesson m result).1 now "/lessons" fetcher
          { cacheKey := some "all_lessons" }).fetcherInvoked = true) ∧
    (truthy result.optSuccess = false → (completeLesson m result).1 = m) := by
  refine ⟨?_, ?_, ?_⟩
  · simp only [completeLesson]
    split <;> rfl
  · intro htr
    have hst : (completeLesson m result).1.store
        = mapDelete (mapDelete m.store (buildKey "all_lessons" "lessons"))
            (buildKey "progress" "progress") := by
      simp only [completeLesson, htr, if_true]
      rw [invalidate_store, invalidate_store]
    have hkLP : buildKey "all_lessons" "lessons" ≠ buildKey "progress" "progress" := by decide
    have hL : mapGet (completeLesson m result).1.store (buildKey "all_lessons" "lessons")
        = none := by
      rw [hst, mapGet_mapDelete_ne _ _ _ hkLP]
      exact mapGet_mapDelete_self _ _ hnodup
    refine ⟨hL, ?_, ?_, ?_⟩
    · rw [hst]
      exact mapGet_mapDelete_self _ _ (nodup_keys_mapDelete _ _ hnodup)
    · intro k hk1 hk2
      rw [hst, mapGet_mapDelete_ne _ _ _ hk2, mapGet_mapDelete_ne _ _ _ hk1]
    · apply cachedCall_cacheFirst_invoked _ _ _ _ _ rfl rfl
      have hns : (getCacheConfig "/lessons").nspace = "lessons" := by decide
      have hck : (({ cacheKey := some "all_lessons" } : CallOptions).cacheKey.getD "/lessons")
          = "all_lessons" := by decide
      rw [hck, hns]
      simp [CacheManager.get, hL]
  · intro htr
    simp [completeLesson, htr]

/-- Witness for C6 at a concrete successful mutation over a warm cache. -/
theorem C6_mutation_invalidation_witness :
    mapGet (completeLesson
        ((CacheManager.init.set 0 "all_lessons" (.vnum 1) "lessons" none).set 0
          "progress" (.vnum 2) "progress" none)
        (.vobj (.vbool true) .vundefined .vundefined)).1.store
      (buildKey "all_lessons" "lessons") = none :=
  ((C6_mutation_invalidation
      ((CacheManager.init.set 0 "all_lessons" (.vnum 1) "lessons" none).set 0
        "progress" (.vnum 2) "progress" none)
      (.vobj (.vbool true) .vundefined .vundefined) 0 (.ok (.vnum 3)) (by decide)).2.1 (by decide)).1

/-! Claim C7. -/

/-- C7 counterexample: under `network-first` with a present AND valid
cache entry that stores `null`, a fetcher error is re-thrown even
though a valid entry exists — because `cachedCall` checks the read
value against `null`, not entry presence — refuting "re-throws iff no
such entry exists". -/
theorem C7_network_first_counterexample :
    (mapGet (CacheManager.init.set 0 "e" .vnull "default" none).store
        (buildKey "e" "default")).isSome = true ∧
    (mapGet (CacheManager.init.set 0 "e" .vnull "default" none).store
        (buildKey "e" "default")).map (fun ent => ent.isValid 0) = some true ∧
    (cachedCall (CacheManager.init.set 0 "e" .vnull "default" none) 0 "e"
        (.error (.vstr "boom")) { strategy := "network-first" }).result
      = .threw (.vstr "boom") :=
  ⟨by decide, by decide, by decide⟩

/-- C7 amended: under `network-first`, a thrown fetcher error is
suppressed and the cached value returned (tagged as a fallback) iff a
present, valid entry holding a NON-`null` value exists for the cache
key; otherwise — absent entry, expired entry, or an entry storing
`null` — the original error is re-thrown. Under every other strategy a
thrown fetcher error is propagated unchanged whenever the fetcher was
invoked. -/
theorem C7_network_first_amended (m : CacheManager) (now : Int) (ep : String)
    (e : JSValue) (opts : CallOptions)
    (hstrat : opts.strategy = "network-first") (hskip : opts.skipCache = false) :
    (∀ ent, mapGet m.store
        (buildKey (opts.cacheKey.getD ep) (getCacheConfig ep).nspace) = some ent →
      ent.isValid now = true → ent.data ≠ .vnull →
      (cachedCall m now ep (.error e) opts).result = .fromCacheFallback ent.data) ∧
    ((∀ ent, mapGet m.store
        (buildKey (opts.cacheKey.getD ep) (getCacheConfig ep).nspace) = some ent →
      ent.isValid now = false ∨ ent.data = .vnull) →
      (cachedCall m now ep (.error e) opts).result = .threw e) ∧
    (∀ strat, strat ≠ "network-first" →
      (cachedCall m now ep (.error e) { opts with strategy := strat }).fetcherInvoked = true →
      (cachedCall m now ep (.error e) { opts with strategy := strat }).result = .threw e) := by
  have hcf : (opts.strategy == "cache-first") = false := by simp [hstrat]
  have heq := cachedCall_eq_fetchPhase m now ep (.error e) opts hskip hcf
  have hnf : (opts.strategy == "network-first") = true := by simp [hstrat]
  refine ⟨?_, ?_, ?_⟩
  · intro ent hent hvalid hdata
    have hget : (m.get now (opts.cacheKey.getD ep) (getCacheConfig ep).nspace).2
        = ent.data := by
      simp [CacheManager.get, hent, hvalid]
    rw [heq]
    simp only [fetchPhase, hnf, if_true]
    rw [hget]
    have hbne : (ent.data != JSValue.vnull) = true := by
      simpa using hdata
    simp [hbne]
  · intro hall
    have hget : (m.get now (opts.cacheKey.getD ep) (getCacheConfig ep).nspace).2
        = .vnull := by
      cases hm : mapGet m.store (buildKey (opts.cacheKey.getD ep) (getCacheConfig ep).nspace) with
      | none => simp [CacheManager.get, hm]
      | some ent =>
        cases hv : ent.isValid now with
        | false => simp [CacheManager.get, hm, hv]
        | true =>
          have hd : ent.data = .vnull := by
            rcases hall ent hm with h | h
            · rw [hv] at h
              exact absurd h (by simp)
            · exact h
          simp [CacheManager.get, hm, hv, hd]
    rw [heq]
    simp only [fetchPhase, hnf, if_true]
    rw [hget]
    simp
  · intro strat hne hinv
    by_cases hc : strat = "cache-first"
    · subst hc
      by_cases hmiss :
          (m.get now (opts.cacheKey.getD ep) (getCacheConfig ep).nspace).2 = .vnull
      · have hb : ((({ opts with strategy := "cache-first" } : CallOptions).strategy
            == "cache-first")) = true := by simp
        simp only [cachedCall, hskip, Bool.false_eq_true, if_false, hb, if_true] at hinv ⊢
        rw [hmiss] at hinv ⊢
        simp only [bne_self_eq_false, Bool.false_eq_true, if_false] at hinv ⊢
        simp [fetchPhase]
      · have hb : ((({ opts with strategy := "cache-first" } : CallOptions).strategy
            == "cache-first")) = true := by simp
        simp only [cachedCall, hskip, Bool.false_eq_true, if_false, hb, if_true] at hinv
        have hbne : ((m.get now (opts.cacheKey.getD ep)
            (getCacheConfig ep).nspace).2 != JSValue.vnull) = true := by
          simpa using hmiss
        rw [hbne] at hinv
        simp at hinv
    · have hb : ((({ opts with strategy := strat } : CallOptions).strategy
          == "cache-first")) = false := by simp [hc]
      have heq' := cachedCall_eq_fetchPhase m now ep (.error e)
        { opts with strategy := strat } hskip hb
      rw [heq']
      have hb' : ((({ opts with strategy := strat } : CallOptions).strategy
          == "network-first")) = false := by simp [hne]
      simp [fetchPhase, hb']

/-- Witness for C7's amended theorem: a valid non-null entry is served
as the network-first fallback. -/
theorem C7_network_first_amended_witness :
    (cachedCall (CacheManager.init.set 0 "e" (.vnum 7) "default" none) 0 "e"
        (.error (.vstr "boom")) { strategy := "network-first" }).result
      = .fromCacheFallback (.vnum 7) :=
  (C7_network_first_amended (CacheManager.init.set 0 "e" (.vnum 7) "default" none) 0 "e"
      (.vstr "boom") { strategy := "network-first" } rfl rfl).1
    { data := .vnum 7, ttl := 600000, timestamp := 0, key := "default:e",
      accessCount := 0, lastAccessTime := 0 } (by decide) (by decide) (by decide)

/-! Claim C10. -/

/-- C10: storing `null` makes a cached value indistinguishable from
absence. A still-valid `get` of a stored `null` records a hit and bumps
the entry's access count, yet returns `null` — the same value an
outright miss returns — and `cachedCall`'s cache-first check
(`cached !== null`) therefore treats a cached `null` as a miss and
invokes the fetcher on every call. -/
theorem C10_cached_null_indistinguishable (m : CacheManager) (now now' : Int)
    (key ns ep : String) (fetcher : Except JSValue JSValue) (opts : CallOptions)
    (hval : now' - now < resolveTTL m.defaultTTLs ns none) :
    (((m.set now key .vnull ns none).get now' key ns).2 = .vnull ∧
     ((m.set now key .vnull ns none).get now' key ns).1.stats.hits
        = (m.set now key .vnull ns none).stats.hits + 1 ∧
     (mapGet (((m.set now key .vnull ns none).get now' key ns).1.store)
        (buildKey key ns)).map (fun e => e.accessCount) = some 1) ∧
    (∀ ent, mapGet m.store
        (buildKey (opts.cacheKey.getD ep) (getCacheConfig ep).nspace) = some ent →
      ent.isValid now = true → ent.data = .vnull →
      opts.strategy = "cache-first" → opts.skipCache = false →
      (cachedCall m now ep fetcher opts).fetcherInvoked = true) := by
  constructor
  · have hentry : mapGet ((m.set now key .vnull ns none).store) (buildKey key ns)
        = some (CacheEntry.mkNew .vnull (resolveTTL m.defaultTTLs ns none)
            (buildKey key ns) now) := by
      rw [CacheManager.set]
      exact mapGet_mapSet_self _ _ _
    have hvalid : (CacheEntry.mkNew .vnull (resolveTTL m.defaultTTLs ns none)
        (buildKey key ns) now).isValid now' = true := by
      simp [CacheEntry.mkNew, CacheEntry.isValid]
      omega
    have hred : (m.set now key .vnull ns none).get now' key ns
        = ({ (m.set now key .vnull ns none) with
              store := mapSet ((m.set now key .vnull ns none).store) (buildKey key ns)
                ((CacheEntry.mkNew .vnull (resolveTTL m.defaultTTLs ns none)
                  (buildKey key ns) now).recordAccess now'),
              stats := { (m.set now key .vnull ns none).stats with
                hits := (m.set now key .vnull ns none).stats.hits + 1 } },
           (CacheEntry.mkNew .vnull (resolveTTL m.defaultTTLs ns none)
             (buildKey key ns) now).data) := by
      simp [CacheManager.get, hentry, hvalid]
    rw [hred]
    refine ⟨rfl, rfl, ?_⟩
    rw [mapGet_mapSet_self]
    rfl
  · intro ent hent hvalid hdata hstrat hskip
    apply cachedCall_cacheFirst_invoked _ _ _ _ _ hstrat hskip
    simp [CacheManager.get, hent, hvalid, hdata]

/-- Witness for C10 at a concrete cached `null`. -/
theorem C10_cached_null_indistinguishable_witness :
    ((CacheManager.init.set 0 "k" .vnull "default" none).get 5 "k" "default").2 = .vnull :=
  ((C10_cached_null_indistinguishable CacheManager.init 0 5 "k" "default" "e"
    (.ok (.vnum 1)) {} (by decide)).1).1

/-! Claim C9. -/

/-- Helper: folding `Map.set` over records with duplicate-free keys into
a disjoint accumulator is a plain append of the keyed records. -/
theorem foldl_mapSet_eq_append (now : Int) :
    ∀ (l : List (String × ExportedEntry)) (acc : Store),
      (l.map Prod.fst).Nodup → (∀ p ∈ l, mapGet acc p.1 = none) →
      l.foldl (fun st p => mapSet st p.1 (rebuiltEntry p.1 p.2 now)) acc
        = acc ++ l.map (fun p => (p.1, rebuiltEntry p.1 p.2 now)) := by
  intro l
  induction l with
  | nil =>
    intro acc _ _
    simp
  | cons p ps ih =>
    intro acc hnodup hdisj
    simp only [List.map_cons, List.nodup_cons] at hnodup
    have hacc : mapSet acc p.1 (rebuiltEntry p.1 p.2 now)
        = acc ++ [(p.1, rebuiltEntry p.1 p.2 now)] :=
      mapSet_of_absent _ _ _ (hdisj p (List.mem_cons_self _ _))
    simp only [List.foldl_cons, hacc]
    rw [ih (acc ++ [(p.1, rebuiltEntry p.1 p.2 now)]) hnodup.2 ?_]
    · simp
    · intro q hq
      rw [mapGet_append_of_none]
      · have hqp : q.1 ≠ p.1 := by
          intro h
          apply hnodup.1
          have hm := List.mem_map_of_mem Prod.fst hq
          rwa [h] at hm
        simp [mapGet, Ne.symm hqp]
      · exact hdisj q (List.mem_cons_of_mem _ hq)

/-- Helper: exporting at clock `t` and rebuilding at clock `t'` leaves,
entry for entry, the value, TTL and access count untouched and shifts
the write time so that validity and remaining TTL at `t'` equal those
at `t`. -/
theorem roundtrip_list (t t' : Int) (s : Store) (k : String) :
    (mapGet (s.map (fun p => (p.1, rebuiltEntry p.1
        { data := p.2.data, ttl := p.2.ttl, age := t - p.2.timestamp,
          isValid := p.2.isValid t, timeToLive := p.2.getTimeToLive t,
          accessCount := p.2.accessCount } t'))) k).map
        (fun e => (e.data, e.ttl, e.accessCount, e.isValid t', e.getTimeToLive t'))
      = (mapGet s k).map
        (fun e => (e.data, e.ttl, e.accessCount, e.isValid t, e.getTimeToLive t)) := by
  induction s with
  | nil => simp [mapGet]
  | cons p ps ih =>
    by_cases hp : p.1 = k
    · have hts : t' - (t' - (t - p.2.timestamp)) = t - p.2.timestamp := by ring
      simp [mapGet, hp, rebuiltEntry, CacheEntry.isValid, CacheEntry.getTimeToLive, hts]
    · simpa [mapGet, hp] using ih

/-- C9: `import(export())` reconstructs equivalent entries. For every
key, the rebuilt entry preserves the value, TTL and access count
exactly, and the write time is reconstructed from the exported age so
that validity and remaining time-to-live at the import clock equal the
originals at the export clock — expiry is preserved up to the clock
advance between export and import. -/
theorem C9_export_import_roundtrip (m : CacheManager) (t t' : Int)
    (hnodup : (m.store.map Prod.fst).Nodup) :
    ∀ k, (mapGet ((m.importCache (m.exportCache t) t').store) k).map
        (fun e => (e.data, e.ttl, e.accessCount, e.isValid t', e.getTimeToLive t'))
      = (mapGet m.store k).map
        (fun e => (e.data, e.ttl, e.accessCount, e.isValid t, e.getTimeToLive t)) := by
  intro k
  have hkeys : ((m.exportCache t).map Prod.fst) = m.store.map Prod.fst := by
    simp [CacheManager.exportCache, List.map_map]
  have hstore : (m.importCache (m.exportCache t) t').store
      = (m.exportCache t).map (fun p => (p.1, rebuiltEntry p.1 p.2 t')) := by
    simp only [CacheManager.importCache]
    rw [foldl_mapSet_eq_append t' (m.exportCache t) []
      (by rw [hkeys]; exact hnodup) (fun p _ => rfl)]
    simp
  have hcomp : (m.exportCache t).map (fun p => (p.1, rebuiltEntry p.1 p.2 t'))
      = m.store.map (fun p => (p.1, rebuiltEntry p.1
          { data := p.2.data, ttl := p.2.ttl, age := t - p.2.timestamp,
            isValid := p.2.isValid t, timeToLive := p.2.getTimeToLive t,
            accessCount := p.2.accessCount } t')) := by
    simp [CacheManager.exportCache, List.map_map]
  rw [hstore, hcomp]
  exact roundtrip_list t t' m.store k

/-- Witness for C9 on a concrete two-entry cache, exported at clock 10
and re-imported at clock 25. -/
theorem C9_export_import_roundtrip_witness :
    (mapGet ((((CacheManager.init.set 0 "a" (.vnum 1) "x" none).set 3 "b" .vnull "y"
          (some 50)).importCache
        (((CacheManager.init.set 0 "a" (.vnum 1) "x" none).set 3 "b" .vnull "y"
          (some 50)).exportCache 10) 25).store) (buildKey "b" "y")).map
        (fun e => (e.data, e.ttl, e.accessCount, e.isValid 25, e.getTimeToLive 25))
      = (mapGet ((CacheManager.init.set 0 "a" (.vnum 1) "x" none).set 3 "b" .vnull "y"
          (some 50)).store (buildKey "b" "y")).map
        (fun e => (e.data, e.ttl, e.accessCount, e.isValid 10, e.getTimeToLive 10)) :=
  C9_export_import_roundtrip
    ((CacheManager.init.set 0 "a" (.vnum 1) "x" none).set 3 "b" .vnull "y" (some 50))
    10 25 (by decide) (buildKey "b" "y")

/-! Claim C8. -/

/-- C8 evaluated at the failing input (the claim is right, the code has
a slip): `warmCache` sorts the priority-tier keys with the DEFAULT
`Array.prototype.sort()` — string comparison — although its own comment
says "Execute by priority (critical first, then high, etc.)" and the
task list itself is sorted numerically one line earlier. With registered
tasks of priorities 2 and 10 and threshold 10, `String(10) = "10"`
sorts before `String(2) = "2"`, so the tier of priority 10 executes
strictly BEFORE the tier of priority 2, violating non-decreasing
numeric order across tiers. -/
theorem C8_priority_tier_order_bug :
    warmCachePlan [⟨"taskA", 2⟩, ⟨"taskB", 10⟩] 10
      = [(10, ["taskB"]), (2, ["taskA"])] ∧
    warmCachePlan [⟨"getUserProgress", 1⟩, ⟨"getLessons", 2⟩, ⟨"getUserStreak", 3⟩] 2
      = [(1, ["getUserProgress"]), (2, ["getLessons"])] :=
  ⟨by decide, by decide⟩

end SignAge
